import Mathlib

/- Shallow embedding of the coffee-log offline synchronization engine and its
backends.

Embedded sources:
- frontend/src/data/types.ts: Entry, EntryPayload, OutboxItem.
- frontend/src/data/storage.ts: the IndexedDB keyed collections (putEntry,
  putEntries, deleteOutboxItem, clearEntries, clearOutbox); a collection is a
  list of records keyed by id, put is upsert-by-id, delete removes the record
  with the key.
- frontend/src/data/api.ts: the remote adapter (fetchEntries, createEntry,
  updateEntry, deleteEntry, ensureOk), embedded over HTTP responses.
- frontend/src/CoffeeLog.tsx: the sync engine (refreshOutbox, syncFromServer,
  processOutbox, runSync, handleLogout).
- backend/main.go: the mock file-backed Store (List, Update) and the
  authenticated Postgres handlers (listEntries, updateEntry); the SQL table is
  embedded as a list of rows, ORDER BY brewed_at DESC as a stable descending
  sort (RFC3339 UTC timestamp strings compare lexicographically in
  chronological order).

Remote calls are embedded as a pure oracle (RemoteClient): each call either
returns a value or fails with an error message, matching the adapter's
behaviour of throwing an Error carrying a message. -/

namespace Coffee

/-- Sync status of a local entry, types.ts. -/
inductive SyncStatus
  | synced
  | pending
deriving DecidableEq, Repr

/-- EntryPayload from types.ts: the wire payload for create and update. -/
structure EntryPayload where
  id : Option String
  beans : String
  brew_method : String
  notes : String
  rating : Int
  brewed_at : String
deriving DecidableEq, Repr

/-- Entry from types.ts: a journal record in the Local Store; syncStatus is an
optional field in the source. -/
structure Entry where
  id : String
  beans : String
  brewMethod : String
  notes : String
  rating : Int
  brewedAt : String
  createdAt : String
  updatedAt : String
  syncStatus : Option SyncStatus
deriving DecidableEq, Repr

/-- OutboxAction from types.ts. -/
inductive OutboxAction
  | create
  | update
  | delete
deriving DecidableEq, Repr

/-- OutboxItem from types.ts: one queued, not-yet-confirmed mutation. -/
structure OutboxItem where
  id : String
  action : OutboxAction
  entryId : String
  payload : Option EntryPayload
  queuedAt : String
deriving DecidableEq, Repr

/-- The Local Store: the two IndexedDB collections of storage.ts, both keyed
by the record id. -/
structure Store where
  entries : List Entry
  outbox : List OutboxItem
deriving DecidableEq, Repr

/-- The engine status exposed to the UI: the syncState React state of
CoffeeLog.tsx. -/
inductive SyncState
  | idle
  | syncing
  | offline
deriving DecidableEq, Repr

/-- The sync engine's observable state: the Local Store plus the syncState and
error React states of CoffeeLog.tsx. -/
structure EngineState where
  store : Store
  syncState : SyncState
  errorMsg : Option String
deriving DecidableEq, Repr

/-- A remote call attempted against the backend, recorded for call-trace
reasoning about the drain and reconcile steps. -/
inductive RemoteCall
  | createCall (p : EntryPayload)
  | updateCall (entryId : String) (p : EntryPayload)
  | deleteCall (entryId : String)
  | listCall
deriving DecidableEq, Repr

/-- The Remote Client oracle: api.ts's createEntry, updateEntry, deleteEntry
and fetchEntries, each either returning a value or failing with an error
message. -/
structure RemoteClient where
  createE : EntryPayload → Except String Entry
  updateE : String → EntryPayload → Except String Entry
  deleteE : String → Except String Unit
  listE : Unit → Except String (List Entry)

/-- putEntry from storage.ts: upsert by the id key of the entries
collection. -/
def putEntry (es : List Entry) (e : Entry) : List Entry :=
  if es.any (fun x => x.id == e.id) then es.map (fun x => if x.id == e.id then e else x)
  else es ++ [e]

/-- putEntries from storage.ts: put every entry of the list in order. -/
def putEntries (es : List Entry) (l : List Entry) : List Entry :=
  l.foldl putEntry es

/-- deleteOutboxItem from storage.ts: remove the outbox record with the given
id key. -/
def deleteOutboxItem (ob : List OutboxItem) (oid : String) : List OutboxItem :=
  ob.filter (fun it => it.id != oid)

/-- Lexicographic comparison of character lists: the string ordering used for
the queuedAt and brewed_at sort keys (all are ASCII timestamp strings, for
which localeCompare and SQL timestamp comparison agree with lexicographic
character order). -/
def charListLe : List Char → List Char → Bool
  | [], _ => true
  | _ :: _, [] => false
  | a :: as, b :: bs => if a < b then true else if b < a then false else charListLe as bs

/-- String comparison on the underlying character lists. -/
abbrev strLe (a b : String) : Bool := charListLe a.data b.data

/-- Totality of the lexicographic comparison. -/
def charListLe_total : ∀ a b : List Char, charListLe a b = true ∨ charListLe b a = true
  | [], _ => Or.inl rfl
  | _ :: _, [] => Or.inr rfl
  | a :: as, b :: bs => by
    rcases lt_trichotomy a b with hab | hab | hab
    · exact Or.inl (by simp only [charListLe]; rw [if_pos hab])
    · subst hab
      rcases charListLe_total as bs with h | h
      · exact Or.inl (by simp only [charListLe]; rw [if_neg (lt_irrefl a), if_neg (lt_irrefl a)]; exact h)
      · exact Or.inr (by simp only [charListLe]; rw [if_neg (lt_irrefl a), if_neg (lt_irrefl a)]; exact h)
    · exact Or.inr (by simp only [charListLe]; rw [if_pos hab])

/-- Transitivity of the lexicographic comparison. -/
def charListLe_trans : ∀ a b c : List Char,
    charListLe a b = true → charListLe b c = true → charListLe a c = true
  | [], _, _, _, _ => rfl
  | _ :: _, [], _, h1, _ => by simp only [charListLe] at h1; exact absurd h1 (by simp)
  | _ :: _, _ :: _, [], _, h2 => by simp only [charListLe] at h2; exact absurd h2 (by simp)
  | a :: as, b :: bs, c :: cs, h1, h2 => by
    simp only [charListLe] at h1 h2 ⊢
    rcases lt_trichotomy a b with hab | hab | hab
    · rcases lt_trichotomy b c with hbc | hbc | hbc
      · rw [if_pos (lt_trans hab hbc)]
      · subst hbc; rw [if_pos hab]
      · rw [if_neg (lt_asymm hbc), if_pos hbc] at h2; exact absurd h2 (by simp)
    · subst hab
      rcases lt_trichotomy a c with hac | hac | hac
      · rw [if_pos hac]
      · subst hac
        rw [if_neg (lt_irrefl a), if_neg (lt_irrefl a)] at h1 h2 ⊢
        exact charListLe_trans as bs cs h1 h2
      · rw [if_neg (lt_asymm hac), if_pos hac] at h2; exact absurd h2 (by simp)
    · rw [if_neg (lt_asymm hab), if_pos hab] at h1; exact absurd h1 (by simp)

/-- Comparator of refreshOutbox in CoffeeLog.tsx: items.sort compares
a.queuedAt.localeCompare(b.queuedAt), i.e. ascending by queuedAt. -/
abbrev queuedLe (a b : OutboxItem) : Prop := strLe a.queuedAt b.queuedAt = true

instance : DecidableRel queuedLe :=
  fun a b => inferInstanceAs (Decidable (strLe a.queuedAt b.queuedAt = true))

instance : IsTotal OutboxItem queuedLe :=
  ⟨fun a b => charListLe_total a.queuedAt.data b.queuedAt.data⟩

instance : IsTrans OutboxItem queuedLe :=
  ⟨fun _ _ _ h1 h2 => charListLe_trans _ _ _ h1 h2⟩

/-- refreshOutbox in CoffeeLog.tsx: read the outbox collection and sort it
ascending by queuedAt (JavaScript sort is stable). -/
def sortOutbox (l : List OutboxItem) : List OutboxItem :=
  List.insertionSort queuedLe l

/-- Map.set semantics of a JavaScript Map represented as an association list:
replace the value when the key is present, append otherwise. -/
def mapSet (m : List (String × Entry)) (k : String) (v : Entry) : List (String × Entry) :=
  if m.any (fun p => p.1 == k) then m.map (fun p => if p.1 == k then (k, v) else p)
  else m ++ [(k, v)]

/-- Map.get semantics on the association-list representation. -/
def mapGet (m : List (String × Entry)) (k : String) : Option Entry :=
  (m.find? (fun p => p.1 == k)).map (fun p => p.2)

/-- syncFromServer, first step: the local entries still marked pending. -/
def pendingEntries (locals : List Entry) : List Entry :=
  locals.filter (fun e => decide (e.syncStatus = some SyncStatus.pending))

/-- syncFromServer, first step: the JavaScript Map from pending entry id to
the pending entry, built left to right. -/
def buildPendingMap (locals : List Entry) : List (String × Entry) :=
  (pendingEntries locals).foldl (fun m e => mapSet m e.id e) []

/-- syncFromServer, second step: remoteEntries.forEach pushes the pending
version when one exists for the remote entry's id, the remote entry
otherwise. -/
def mergeStep1 (locals remotes : List Entry) : List Entry :=
  remotes.map (fun e => (mapGet (buildPendingMap locals) e.id).getD e)

/-- syncFromServer, third step: pending.forEach appends each pending entry
whose id is not already present in the merged list. -/
def addMissing (init : List Entry) (m : List (String × Entry)) : List Entry :=
  m.foldl
    (fun merged p => if merged.any (fun item => item.id == p.2.id) then merged else merged ++ [p.2])
    init

/-- The merged entry set built by syncFromServer in CoffeeLog.tsx. -/
def syncMerge (locals remotes : List Entry) : List Entry :=
  addMissing (mergeStep1 locals remotes) (buildPendingMap locals)

/-- The sequence of states of the entries collection observable while
syncFromServer runs: the pre-merge set; then, when the fetch succeeded, the
state after the clearEntries transaction committed (empty) and the state after
the separate putEntries transaction committed (the merged set written into the
cleared collection). When the fetch fails the collection is never touched. -/
def syncFromServerStates (r : RemoteClient) (es : List Entry) : List (List Entry) :=
  match r.listE () with
  | .error _ => [es]
  | .ok remotes => [es, [], putEntries [] (syncMerge es remotes)]

/-- The remote call an outbox item triggers in processOutbox: create and
update call the adapter when a payload is present, delete always calls the
adapter; a create or update item without payload triggers no call. -/
def itemRemoteCall (item : OutboxItem) : Option RemoteCall :=
  match item.action, item.payload with
  | .create, some p => some (.createCall p)
  | .update, some p => some (.updateCall item.entryId p)
  | .delete, _ => some (.deleteCall item.entryId)
  | _, _ => none

/-- One iteration of the processOutbox loop acting on the entries collection:
on a successful create or update the returned canonical entry is written with
syncStatus synced; on delete the entries collection is untouched; a create or
update item without payload does nothing. Failure of the remote call is the
thrown error. -/
def drainStep (r : RemoteClient) (es : List Entry) (item : OutboxItem) :
    Except String (List Entry) :=
  match item.action, item.payload with
  | .create, some p =>
    match r.createE p with
    | .ok created => .ok (putEntry es { created with syncStatus := some SyncStatus.synced })
    | .error msg => .error msg
  | .update, some p =>
    match r.updateE item.entryId p with
    | .ok updated => .ok (putEntry es { updated with syncStatus := some SyncStatus.synced })
    | .error msg => .error msg
  | .delete, _ =>
    match r.deleteE item.entryId with
    | .ok _ => .ok es
    | .error msg => .error msg
  | _, _ => .ok es

/-- Result of draining a list of outbox items: the Local Store afterwards, the
items whose iteration completed (their outbox record was deleted), the remote
calls attempted in order, and on failure the caught message together with the
failing item and the untouched remainder of the queue. -/
structure DrainOut where
  store : Store
  done : List OutboxItem
  calls : List RemoteCall
  failure : Option (String × OutboxItem × List OutboxItem)
deriving Repr

/-- The for-loop of processOutbox in CoffeeLog.tsx: process items in order; on
success delete the item's outbox record and continue; on the first thrown
error stop (break), leaving the store as it was and the remaining items
untouched. -/
def drainLoop (r : RemoteClient) (st : Store) : List OutboxItem → DrainOut
  | [] => ⟨st, [], [], none⟩
  | item :: rest =>
    match drainStep r st.entries item with
    | .ok es =>
      let o := drainLoop r ⟨es, deleteOutboxItem st.outbox item.id⟩ rest
      ⟨o.store, item :: o.done, (itemRemoteCall item).toList ++ o.calls, o.failure⟩
    | .error msg => ⟨st, [], (itemRemoteCall item).toList, some (msg, item, rest)⟩

/-- The calls contributed by the failing iteration of a drain, read off the
failure component of a DrainOut: the failing item's call was attempted, the
untouched remainder contributed nothing. -/
def failCalls : Option (String × OutboxItem × List OutboxItem) → List RemoteCall
  | some f => (itemRemoteCall f.2.1).toList
  | none => []

/-- runSync in CoffeeLog.tsx. Without a token it returns at once; when
navigator.onLine is false it only sets the state to offline. Otherwise it sets
the state to syncing, clears the error, runs processOutbox (which catches its
own failure, records the message and breaks - it never throws), then runs
syncFromServer: if the fetch fails the catch sets the error and the state
offline; if it succeeds the entries collection is replaced by the merged set
and the state becomes idle. Returns the new engine state and the remote calls
made. -/
def runSync (r : RemoteClient) (token online : Bool) (e : EngineState) :
    EngineState × List RemoteCall :=
  if token = false then (e, [])
  else if online = false then ({ e with syncState := SyncState.offline }, [])
  else
    let o := drainLoop r e.store (sortOutbox e.store.outbox)
    match r.listE () with
    | .error msg =>
      ({ store := o.store, syncState := SyncState.offline, errorMsg := some msg },
        o.calls ++ [RemoteCall.listCall])
    | .ok remotes =>
      ({ store := ⟨putEntries [] (syncMerge o.store.entries remotes), o.store.outbox⟩,
         syncState := SyncState.idle,
         errorMsg := (o.failure.map (fun f => f.1)) },
        o.calls ++ [RemoteCall.listCall])

/-- handleLogout in CoffeeLog.tsx: clearEntries and clearOutbox empty both
collections; no remote call is made. -/
def handleLogout (_st : Store) : Store × List RemoteCall :=
  (⟨[], []⟩, [])

/-- The interleaving of two back-to-back runSync invocations in which the
second pass reads the outbox (refreshOutbox inside processOutbox) before the
first pass has deleted any item: runSync has no reentrancy guard, so both
passes proceed, each drains its own snapshot of the same queue, and the calls
of both passes are made. -/
def backToBackDrainCalls (r : RemoteClient) (st : Store) : List RemoteCall :=
  let snap := sortOutbox st.outbox
  let oA := drainLoop r st snap
  let oB := drainLoop r oA.store snap
  oA.calls ++ oB.calls

/-- The remote call required by an outbox item returned success: what it means
for an item's drain iteration to have been confirmed remotely. -/
def callSucceeded (r : RemoteClient) (item : OutboxItem) : Prop :=
  match item.action, item.payload with
  | .create, some p => ∃ e, r.createE p = .ok e
  | .update, some p => ∃ e, r.updateE item.entryId p = .ok e
  | .delete, _ => r.deleteE item.entryId = .ok ()
  | _, _ => True

/-- ServerEntry from api.ts: the snake_case wire shape of an entry. -/
structure ServerEntry where
  id : String
  beans : String
  brew_method : String
  notes : String
  rating : Int
  brewed_at : String
  created_at : String
  updated_at : String
deriving DecidableEq, Repr

/-- An HTTP response as the adapter sees it: the status code, the optional
error string of the JSON body (data.error), and the parsed success body. -/
structure HttpResponse (α : Type) where
  status : Nat
  errorBody : Option String
  body : α
deriving Repr

/-- response.ok of the fetch API: status in the range 200 to 299. -/
def responseOk (status : Nat) : Bool :=
  decide (200 ≤ status) && decide (status < 300)

/-- ensureOk in api.ts: the message of the thrown Error, the body's error
string when present, a generic message naming the status otherwise. -/
def ensureOkMsg (status : Nat) (errorBody : Option String) : String :=
  match errorBody with
  | some m => m
  | none => "Request failed (" ++ toString status ++ ")"

/-- The mapping api.ts applies to every ServerEntry it returns: camelCase
fields plus syncStatus synced. -/
def serverToEntry (s : ServerEntry) : Entry :=
  { id := s.id, beans := s.beans, brewMethod := s.brew_method, notes := s.notes,
    rating := s.rating, brewedAt := s.brewed_at, createdAt := s.created_at,
    updatedAt := s.updated_at, syncStatus := some SyncStatus.synced }

/-- fetchEntries in api.ts applied to the response of GET /api/entries. -/
def apiFetchEntries (resp : HttpResponse (List ServerEntry)) : Except String (List Entry) :=
  if responseOk resp.status then .ok (resp.body.map serverToEntry)
  else .error (ensureOkMsg resp.status resp.errorBody)

/-- createEntry in api.ts applied to the response of POST /api/entries. -/
def apiCreateEntry (resp : HttpResponse ServerEntry) : Except String Entry :=
  if responseOk resp.status then .ok (serverToEntry resp.body)
  else .error (ensureOkMsg resp.status resp.errorBody)

/-- updateEntry in api.ts applied to the response of PUT /api/entries/id. -/
def apiUpdateEntry (resp : HttpResponse ServerEntry) : Except String Entry :=
  if responseOk resp.status then .ok (serverToEntry resp.body)
  else .error (ensureOkMsg resp.status resp.errorBody)

/-- deleteEntry in api.ts applied to the response of DELETE /api/entries/id:
a 404 response returns at once (success); otherwise ensureOk decides. -/
def apiDeleteEntry (resp : HttpResponse Unit) : Except String Unit :=
  if resp.status = 404 then .ok ()
  else if responseOk resp.status then .ok ()
  else .error (ensureOkMsg resp.status resp.errorBody)

/-- Entry of backend/main.go: the backend's canonical journal record. -/
structure GoEntry where
  id : String
  beans : String
  brewMethod : String
  notes : String
  rating : Int
  brewedAt : String
  createdAt : String
  updatedAt : String
deriving DecidableEq, Repr

/-- EntryInput of backend/main.go: the decoded request payload. -/
structure EntryInput where
  id : String
  beans : String
  brewMethod : String
  notes : String
  rating : Int
  brewedAt : String
deriving DecidableEq, Repr

/-- Store.List of the mock file-backed backend: return a copy of the entries
slice, in the order it is held (creation appends; NewStore loads the file
verbatim). No sorting is performed. -/
def storeList (entries : List GoEntry) : List GoEntry :=
  entries

/-- Store.Update of the mock file-backed backend: find the first entry with
the matching ID, rewrite its payload fields and UpdatedAt in place (CreatedAt
is not assigned), and return it; none when the ID is absent. -/
def storeUpdate (id : String) (input : EntryInput) (now : String) :
    List GoEntry → Option (GoEntry × List GoEntry)
  | [] => none
  | e :: rest =>
    if e.id == id then
      let e2 : GoEntry :=
        { e with beans := input.beans, brewMethod := input.brewMethod, notes := input.notes,
                 rating := input.rating, brewedAt := input.brewedAt, updatedAt := now }
      some (e2, e2 :: rest)
    else
      (storeUpdate id input now rest).map (fun r => (r.1, e :: r.2))

/-- A row of the entries table of the authenticated Postgres backend. -/
structure DbEntryRow where
  userId : String
  id : String
  beans : String
  brewMethod : String
  notes : String
  rating : Int
  brewedAt : String
  createdAt : String
  updatedAt : String
deriving DecidableEq, Repr

/-- Descending brewed_at order of the SQL ORDER BY brewed_at DESC; RFC3339
UTC timestamp strings compare lexicographically in chronological order. -/
abbrev brewedDesc (a b : DbEntryRow) : Prop := strLe b.brewedAt a.brewedAt = true

instance : DecidableRel brewedDesc :=
  fun a b => inferInstanceAs (Decidable (strLe b.brewedAt a.brewedAt = true))

instance : IsTotal DbEntryRow brewedDesc :=
  ⟨fun a b => charListLe_total b.brewedAt.data a.brewedAt.data⟩

instance : IsTrans DbEntryRow brewedDesc :=
  ⟨fun _ _ _ h1 h2 => charListLe_trans _ _ _ h2 h1⟩

/-- The scan of one selected row in listEntries of the Postgres backend. -/
def rowToGoEntry (row : DbEntryRow) : GoEntry :=
  { id := row.id, beans := row.beans, brewMethod := row.brewMethod, notes := row.notes,
    rating := row.rating, brewedAt := row.brewedAt, createdAt := row.createdAt,
    updatedAt := row.updatedAt }

/-- listEntries of the authenticated Postgres backend: SELECT the user's rows
ORDER BY brewed_at DESC (embedded as a stable descending sort on brewedAt)
and scan each row. -/
def listEntries (table : List DbEntryRow) (userID : String) : List GoEntry :=
  (List.insertionSort brewedDesc (table.filter (fun row => row.userId == userID))).map rowToGoEntry

/-- The SET clause of updateEntry's UPDATE statement: payload fields and
updated_at are rewritten, created_at is not in the SET list. -/
def sqlUpdateRow (input : EntryInput) (now : String) (row : DbEntryRow) : DbEntryRow :=
  { row with beans := input.beans, brewMethod := input.brewMethod, notes := input.notes,
             rating := input.rating, brewedAt := input.brewedAt, updatedAt := now }

/-- The WHERE clause of updateEntry: user_id and id both match. -/
def rowMatches (userID id : String) (row : DbEntryRow) : Bool :=
  row.userId == userID && row.id == id

/-- updateEntry of the authenticated Postgres backend: UPDATE the matching
rows; when no row was affected report not found; otherwise SELECT created_at
back from the updated row and return the canonical entry rebuilt from the
input, the re-read created_at and the new updated_at. -/
def updateEntry (table : List DbEntryRow) (userID id : String) (input : EntryInput)
    (now : String) : Option GoEntry × List DbEntryRow :=
  let table2 := table.map (fun row => if rowMatches userID id row then sqlUpdateRow input now row else row)
  if table.any (rowMatches userID id) then
    let created := ((table2.find? (rowMatches userID id)).map (fun r => r.createdAt)).getD now
    (some { id := id, beans := input.beans, brewMethod := input.brewMethod,
            notes := input.notes, rating := input.rating, brewedAt := input.brewedAt,
            createdAt := created, updatedAt := now }, table2)
  else (none, table)

/- Concrete fixtures used by counterexamples and witnesses. -/

/-- A local pending entry, id e1, notes "local". -/
def entryLocal : Entry :=
  { id := "e1", beans := "Yirgacheffe", brewMethod := "pour_over", notes := "local",
    rating := 4, brewedAt := "2024-05-01T08:00:00Z", createdAt := "2024-05-01T08:00:00Z",
    updatedAt := "2024-05-01T08:05:00Z", syncStatus := some SyncStatus.pending }

/-- The remote copy of e1 with the older notes. -/
def entryRemoteOld : Entry :=
  { entryLocal with notes := "remote-old", syncStatus := some SyncStatus.synced }

/-- A second, purely remote entry with id e2. -/
def entryRemoteB : Entry :=
  { id := "e2", beans := "Kenya AA", brewMethod := "espresso", notes := "bright",
    rating := 5, brewedAt := "2024-05-02T09:00:00Z", createdAt := "2024-05-02T09:00:00Z",
    updatedAt := "2024-05-02T09:00:00Z", syncStatus := some SyncStatus.synced }

/-- The queued create payload for e1. -/
def payloadA : EntryPayload :=
  { id := some "e1", beans := "Yirgacheffe", brew_method := "pour_over", notes := "local",
    rating := 4, brewed_at := "2024-05-01T08:00:00Z" }

/-- The queued create payload for e2. -/
def payloadB : EntryPayload :=
  { id := some "e2", beans := "Kenya AA", brew_method := "espresso", notes := "bright",
    rating := 5, brewed_at := "2024-05-02T09:00:00Z" }

/-- Queued create item for e1, enqueued at t1. -/
def itemCreateA : OutboxItem :=
  { id := "ob1", action := OutboxAction.create, entryId := "e1", payload := some payloadA,
    queuedAt := "t1" }

/-- Queued create item for e2, enqueued at t2. -/
def itemCreateB : OutboxItem :=
  { id := "ob2", action := OutboxAction.create, entryId := "e2", payload := some payloadB,
    queuedAt := "t2" }

/-- Stale queued delete item for e1, enqueued at t3. -/
def itemDeleteA : OutboxItem :=
  { id := "ob3", action := OutboxAction.delete, entryId := "e1", payload := none,
    queuedAt := "t3" }

/-- A remote oracle on which every call succeeds; list returns nothing. -/
def remoteAllOk : RemoteClient :=
  { createE := fun p =>
      .ok { id := (p.id).getD "srv", beans := p.beans, brewMethod := p.brew_method,
            notes := p.notes, rating := p.rating, brewedAt := p.brewed_at,
            createdAt := "2024-05-03T00:00:00Z", updatedAt := "2024-05-03T00:00:00Z",
            syncStatus := some SyncStatus.synced },
    updateE := fun eid p =>
      .ok { id := eid, beans := p.beans, brewMethod := p.brew_method,
            notes := p.notes, rating := p.rating, brewedAt := p.brewed_at,
            createdAt := "2024-05-03T00:00:00Z", updatedAt := "2024-05-03T00:00:00Z",
            syncStatus := some SyncStatus.synced },
    deleteE := fun _ => .ok (),
    listE := fun _ => .ok [] }

/-- A remote oracle whose mutation calls all fail while list succeeds and
returns the remote copy of e1 and the entry e2. -/
def remoteFailMutations : RemoteClient :=
  { createE := fun _ => .error "boom",
    updateE := fun _ _ => .error "boom",
    deleteE := fun _ => .error "boom",
    listE := fun _ => .ok [entryRemoteOld, entryRemoteB] }

/-- Engine state before the failing pass of the C1 counterexample: the pending
e1 locally and its queued create item. -/
def engineC1 : EngineState :=
  { store := { entries := [entryLocal], outbox := [itemCreateA] },
    syncState := SyncState.idle, errorMsg := none }

/-- Store with a two-item queue used by the reentrancy counterexample. -/
def storeTwoItems : Store :=
  { entries := [], outbox := [itemCreateA, itemCreateB] }

/-- Store holding only the stale queued delete for e1. -/
def storeStaleDelete : Store :=
  { entries := [], outbox := [itemDeleteA] }

/-- The not-found response of the backend's delete handler for an already
absent entry. -/
def resp404 : HttpResponse Unit :=
  { status := 404, errorBody := some "entry not found", body := () }

/-- A canonical server entry as returned by POST /api/entries. -/
def srvE1 : ServerEntry :=
  { id := "e1", beans := "Yirgacheffe", brew_method := "pour_over", notes := "local",
    rating := 4, brewed_at := "2024-05-01T08:00:00Z", created_at := "2024-05-03T00:00:00Z",
    updated_at := "2024-05-03T00:00:00Z" }

/-- A 201 response of POST /api/entries carrying srvE1. -/
def respCreate1 : HttpResponse ServerEntry :=
  { status := 201, errorBody := none, body := srvE1 }

/-- Store holding only the queued create for e1. -/
def storeOneItem : Store :=
  { entries := [], outbox := [itemCreateA] }

/-- Engine state over the two-item queue, initially idle. -/
def engineTwo : EngineState :=
  { store := storeTwoItems, syncState := SyncState.idle, errorMsg := none }

/-- A remote oracle whose delete receives the backend's not-found response and
maps it through the adapter. -/
def remoteDelete404 : RemoteClient :=
  { createE := fun _ => .error "boom",
    updateE := fun _ _ => .error "boom",
    deleteE := fun _ => apiDeleteEntry resp404,
    listE := fun _ => .ok [] }

/-- Mock-backend entry brewed in January. -/
def goEarly : GoEntry :=
  { id := "g1", beans := "House", brewMethod := "drip", notes := "",
    rating := 3, brewedAt := "2024-01-01T00:00:00Z", createdAt := "2024-01-01T00:00:00Z",
    updatedAt := "2024-01-01T00:00:00Z" }

/-- Mock-backend entry brewed in February, held after the January one. -/
def goLate : GoEntry :=
  { goEarly with id := "g2", brewedAt := "2024-02-01T00:00:00Z" }

/-- Sorting the outbox permutes it. -/
theorem sortOutbox_perm (l : List OutboxItem) : List.Perm (sortOutbox l) l :=
  List.perm_insertionSort queuedLe l

/-- The sorted outbox is pairwise non-decreasing in queuedAt. -/
theorem sortOutbox_sorted (l : List OutboxItem) : List.Pairwise queuedLe (sortOutbox l) :=
  List.sorted_insertionSort queuedLe l

/-- With pairwise distinct queuedAt values the sorted outbox is strictly
ascending in queuedAt. -/
theorem sortOutbox_strict (l : List OutboxItem)
    (hq : (l.map OutboxItem.queuedAt).Nodup) :
    List.Pairwise (fun a b => strLe a.queuedAt b.queuedAt = true ∧ a.queuedAt ≠ b.queuedAt)
      (sortOutbox l) := by
  have hperm : List.Perm ((sortOutbox l).map OutboxItem.queuedAt) (l.map OutboxItem.queuedAt) :=
    (sortOutbox_perm l).map OutboxItem.queuedAt
  have hnd : ((sortOutbox l).map OutboxItem.queuedAt).Nodup := hperm.nodup_iff.mpr hq
  have hne : List.Pairwise (fun a b : OutboxItem => a.queuedAt ≠ b.queuedAt) (sortOutbox l) :=
    List.pairwise_map.mp hnd
  exact (sortOutbox_sorted l).and hne

/-- Unfolding of drainLoop on a successful iteration. -/
theorem drainLoop_cons_ok (r : RemoteClient) (st : Store) (item : OutboxItem)
    (tl : List OutboxItem) (es : List Entry) (h : drainStep r st.entries item = .ok es) :
    drainLoop r st (item :: tl)
      = ⟨(drainLoop r ⟨es, deleteOutboxItem st.outbox item.id⟩ tl).store,
         item :: (drainLoop r ⟨es, deleteOutboxItem st.outbox item.id⟩ tl).done,
         (itemRemoteCall item).toList
           ++ (drainLoop r ⟨es, deleteOutboxItem st.outbox item.id⟩ tl).calls,
         (drainLoop r ⟨es, deleteOutboxItem st.outbox item.id⟩ tl).failure⟩ := by
  simp only [drainLoop]
  rw [h]

/-- Unfolding of drainLoop on a failing iteration. -/
theorem drainLoop_cons_error (r : RemoteClient) (st : Store) (item : OutboxItem)
    (tl : List OutboxItem) (m : String) (h : drainStep r st.entries item = .error m) :
    drainLoop r st (item :: tl)
      = ⟨st, [], (itemRemoteCall item).toList, some (m, item, tl)⟩ := by
  simp only [drainLoop]
  rw [h]

/-- On failure the drained list splits into the completed prefix, the failing
item and the untouched remainder. -/
theorem drainLoop_decomp (r : RemoteClient) :
    ∀ (l : List OutboxItem) (st : Store) (msg : String) (bad : OutboxItem)
      (rest : List OutboxItem),
      (drainLoop r st l).failure = some (msg, bad, rest) →
      l = (drainLoop r st l).done ++ bad :: rest := by
  intro l
  induction l with
  | nil => intro st msg bad rest h; simp [drainLoop] at h
  | cons item tl ih =>
    intro st msg bad rest h
    cases hstep : drainStep r st.entries item with
    | ok es =>
      rw [drainLoop_cons_ok r st item tl es hstep] at h ⊢
      have h2 := ih ⟨es, deleteOutboxItem st.outbox item.id⟩ msg bad rest h
      rw [List.cons_append]
      exact congrArg (item :: ·) h2
    | error m =>
      rw [drainLoop_cons_error r st item tl m hstep] at h ⊢
      simp only [Option.some.injEq, Prod.mk.injEq] at h
      obtain ⟨-, hbad, hrest⟩ := h
      simp [hbad, hrest]

/-- Disequality of string keys is symmetric across the boolean comparison. -/
theorem str_bne_comm (a b : String) : (a != b) = (b != a) := by
  by_cases h : a = b
  · rw [h]
  · have h2 : ¬ b = a := fun hba => h hba.symm
    have ha : (a != b) = true := bne_iff_ne.mpr h
    have hb : (b != a) = true := bne_iff_ne.mpr h2
    rw [ha, hb]

/-- The outbox collection after a drain: the original records minus those of
completed iterations. -/
theorem drainLoop_outbox (r : RemoteClient) :
    ∀ (l : List OutboxItem) (st : Store),
      (drainLoop r st l).store.outbox
        = st.outbox.filter (fun it => (drainLoop r st l).done.all (fun d => d.id != it.id)) := by
  intro l
  induction l with
  | nil => intro st; simp [drainLoop]
  | cons item tl ih =>
    intro st
    cases hstep : drainStep r st.entries item with
    | ok es =>
      rw [drainLoop_cons_ok r st item tl es hstep]
      simp only
      rw [ih ⟨es, deleteOutboxItem st.outbox item.id⟩]
      simp only [deleteOutboxItem, List.filter_filter, List.all_cons]
      apply List.filter_congr
      intro x _
      rw [Bool.and_comm, str_bne_comm x.id item.id]
    | error m =>
      rw [drainLoop_cons_error r st item tl m hstep]
      simp

/-- The calls attempted by a drain: one call per completed item requiring one,
plus the failing item's call. -/
theorem drainLoop_calls (r : RemoteClient) :
    ∀ (l : List OutboxItem) (st : Store),
      (drainLoop r st l).calls
        = (drainLoop r st l).done.filterMap itemRemoteCall
            ++ failCalls (drainLoop r st l).failure := by
  intro l
  induction l with
  | nil => intro st; simp [drainLoop, failCalls]
  | cons item tl ih =>
    intro st
    cases hstep : drainStep r st.entries item with
    | ok es =>
      rw [drainLoop_cons_ok r st item tl es hstep]
      simp only
      rw [ih ⟨es, deleteOutboxItem st.outbox item.id⟩]
      cases hcall : itemRemoteCall item <;>
        simp [List.filterMap_cons, hcall, Option.toList]
    | error m =>
      rw [drainLoop_cons_error r st item tl m hstep]
      simp [failCalls]

/-- A drain that never failed completed every item of its list. -/
theorem drainLoop_done_of_none (r : RemoteClient) :
    ∀ (l : List OutboxItem) (st : Store),
      (drainLoop r st l).failure = none → (drainLoop r st l).done = l := by
  intro l
  induction l with
  | nil => intro st _; simp [drainLoop]
  | cons item tl ih =>
    intro st h
    cases hstep : drainStep r st.entries item with
    | ok es =>
      rw [drainLoop_cons_ok r st item tl es hstep] at h ⊢
      simp only at h ⊢
      rw [ih ⟨es, deleteOutboxItem st.outbox item.id⟩ h]
    | error m =>
      rw [drainLoop_cons_error r st item tl m hstep] at h
      simp at h

/-- A completed iteration of the drain implies its remote call, when the item
requires one, returned success. -/
theorem drainStep_ok_callSucceeded (r : RemoteClient) (es es2 : List Entry)
    (item : OutboxItem) (h : drainStep r es item = .ok es2) : callSucceeded r item := by
  rcases item with ⟨iid, act, eid, pl, q⟩
  cases act <;> cases pl <;> simp only [drainStep, callSucceeded] at h ⊢ <;> try trivial
  · cases hc : r.createE ‹EntryPayload› with
    | ok c => exact ⟨c, rfl⟩
    | error m => rw [hc] at h; simp at h
  · cases hc : r.updateE eid ‹EntryPayload› with
    | ok c => exact ⟨c, rfl⟩
    | error m => rw [hc] at h; simp at h
  · cases hc : r.deleteE eid with
    | ok u => cases u; rfl
    | error m => rw [hc] at h; simp at h
  · cases hc : r.deleteE eid with
    | ok u => cases u; rfl
    | error m => rw [hc] at h; simp at h

/-- Every item completed by a drain had its required remote call succeed. -/
theorem drainLoop_done_succeeded (r : RemoteClient) :
    ∀ (l : List OutboxItem) (st : Store) (d : OutboxItem),
      d ∈ (drainLoop r st l).done → callSucceeded r d := by
  intro l
  induction l with
  | nil => intro st d h; simp [drainLoop] at h
  | cons item tl ih =>
    intro st d h
    cases hstep : drainStep r st.entries item with
    | ok es =>
      rw [drainLoop_cons_ok r st item tl es hstep] at h
      simp only [List.mem_cons] at h
      rcases h with h | h
      · exact h ▸ drainStep_ok_callSucceeded r st.entries es item hstep
      · exact ih ⟨es, deleteOutboxItem st.outbox item.id⟩ d h
    | error m =>
      rw [drainLoop_cons_error r st item tl m hstep] at h
      simp at h

/-- Membership after putEntry: each element is an original entry or the put
entry. -/
theorem putEntry_mem (es : List Entry) (e x : Entry) (h : x ∈ putEntry es e) :
    x ∈ es ∨ x = e := by
  unfold putEntry at h
  by_cases hc : es.any (fun y => y.id == e.id)
  · rw [if_pos hc] at h
    rcases List.mem_map.mp h with ⟨y, hy, hyx⟩
    by_cases hid : (y.id == e.id) = true
    · rw [if_pos hid] at hyx; exact Or.inr hyx.symm
    · rw [if_neg hid] at hyx; exact Or.inl (hyx ▸ hy)
  · rw [if_neg hc] at h
    rcases List.mem_append.mp h with h | h
    · exact Or.inl h
    · simp only [List.mem_singleton] at h; exact Or.inr h

/-- An update payload used against the mock and Postgres backends. -/
def inputU : EntryInput :=
  { id := "g1", beans := "Peru", brewMethod := "aeropress", notes := "new", rating := 2,
    brewedAt := "2024-03-01T00:00:00Z" }

/-- A row of user u1 in the Postgres entries table. -/
def dbRow1 : DbEntryRow :=
  { userId := "u1", id := "g1", beans := "House", brewMethod := "drip", notes := "",
    rating := 3, brewedAt := "2024-01-01T00:00:00Z", createdAt := "2024-01-01T00:00:00Z",
    updatedAt := "2024-01-01T00:00:00Z" }

/-- C1 counterexample: with the remote create failing and the list fetch
succeeding, running a sync pass on a store holding one pending entry and its
queued create item ends in state idle, not offline, and the reconcile step did
run (the entries collection was replaced by the merged set, which differs from
the pre-pass collection); only the outbox is left untouched. This refutes the
claim that a drain failure aborts the rest of the pass and transitions the
engine to Offline. -/
theorem drain_failure_still_reconciles_cex :
    (drainLoop remoteFailMutations engineC1.store (sortOutbox engineC1.store.outbox)).failure.isSome
        = true ∧
    (runSync remoteFailMutations true true engineC1).1.syncState = SyncState.idle ∧
    (runSync remoteFailMutations true true engineC1).1.syncState ≠ SyncState.offline ∧
    (runSync remoteFailMutations true true engineC1).1.store.entries ≠ engineC1.store.entries ∧
    (runSync remoteFailMutations true true engineC1).1.store.outbox = [itemCreateA] := by
  decide

/-- C2 counterexample: while syncFromServer replaces the entries collection
the empty collection is observable (between the clearEntries transaction and
the separate putEntries transaction), and at this input the empty collection
is neither the pre-merge set nor the post-merge set. -/
theorem replace_observes_empty_cex :
    ([] : List Entry) ∈ syncFromServerStates remoteFailMutations [entryLocal] ∧
    ([] : List Entry) ≠ [entryLocal] ∧
    ([] : List Entry) ≠ putEntries [] (syncMerge [entryLocal] [entryRemoteOld, entryRemoteB]) := by
  decide

/-- C3 counterexample: a sync request arriving while the engine is already in
the syncing state is not a no-op (runSync proceeds and makes remote calls),
and two back-to-back sync requests that both read the two-item queue before
either pass removes an item replay each of the two items twice, not once. -/
theorem reentrant_sync_double_drain_cex :
    (runSync remoteAllOk true true
        { store := storeTwoItems, syncState := SyncState.syncing, errorMsg := none }).2 ≠ [] ∧
    backToBackDrainCalls remoteAllOk storeTwoItems =
      [RemoteCall.createCall payloadA, RemoteCall.createCall payloadB,
       RemoteCall.createCall payloadA, RemoteCall.createCall payloadB] := by
  decide

/-- C6 counterexample: handleLogout removes a queued outbox item from the
outbox collection while making no remote call at all, refuting the claim that
no operation of the system removes an outbox item without the matching remote
call having returned success. -/
theorem logout_clears_outbox_cex :
    itemCreateA ∈ ({ entries := [entryLocal], outbox := [itemCreateA] } : Store).outbox ∧
    (handleLogout { entries := [entryLocal], outbox := [itemCreateA] }).1.outbox = [] ∧
    (handleLogout { entries := [entryLocal], outbox := [itemCreateA] }).2 = [] := by
  decide

/-- C8 counterexample: the mock backend's Store.List returns the entries slice
in held order; on a store holding the January entry before the February entry
(a state NewStore loads verbatim from disk and two Creates also produce), the
returned sequence is not sorted in non-increasing brewedAt order. -/
theorem mock_list_unsorted_cex :
    ¬ List.Pairwise (fun a b : GoEntry => strLe b.brewedAt a.brewedAt = true)
        (storeList [goEarly, goLate]) := by
  decide

/-- C2, amended: a concurrent read of the entries collection during
reconciliation observes the pre-merge set, the empty collection (between the
clear transaction and the put transaction), or the post-merge set; the clear
and the put are two separate transactions, so the empty intermediate state is
additionally observable. -/
theorem replace_observable_states (r : RemoteClient) (es s : List Entry)
    (hs : s ∈ syncFromServerStates r es) :
    s = es ∨ s = [] ∨
      ∃ remotes, r.listE () = .ok remotes ∧ s = putEntries [] (syncMerge es remotes) := by
  unfold syncFromServerStates at hs
  cases h : r.listE () with
  | error msg =>
    rw [h] at hs
    simp only [List.mem_singleton] at hs
    exact Or.inl hs
  | ok remotes =>
    rw [h] at hs
    simp only [List.mem_cons, List.not_mem_nil, or_false] at hs
    rcases hs with h1 | h1 | h1
    · exact Or.inl h1
    · exact Or.inr (Or.inl h1)
    · exact Or.inr (Or.inr ⟨remotes, rfl, h1⟩)

/-- Witness for replace_observable_states at the concrete counterexample
input: the empty observable state is one of the three listed shapes. -/
theorem replace_observable_states_witness :
    ([] : List Entry) = [entryLocal] ∨ ([] : List Entry) = [] ∨
      ∃ remotes, remoteFailMutations.listE () = .ok remotes ∧
        ([] : List Entry) = putEntries [] (syncMerge [entryLocal] remotes) :=
  replace_observable_states remoteFailMutations [entryLocal] [] (by decide)

/-- Distinct ids across the split of a drained list. -/
theorem nodup_split_ne (done : List OutboxItem) (bad : OutboxItem) (rest : List OutboxItem)
    (hnd : ((done ++ bad :: rest).map OutboxItem.id).Nodup) :
    ∀ d ∈ done, ∀ it2 ∈ bad :: rest, d.id ≠ it2.id := by
  intro d hd it2 hit2 heq
  rw [List.map_append] at hnd
  have h3 := (List.nodup_append.mp hnd).2.2
  exact h3 (List.mem_map_of_mem OutboxItem.id hd)
    (heq ▸ List.mem_map_of_mem OutboxItem.id hit2)

/-- C5: the drain step processes the outbox in ascending queuedAt order
(strictly ascending when the enqueue timestamps are pairwise distinct, as the
monotonically increasing queuedAt invariant provides), and on the first
failing item it stops: the processed items form the prefix before the failing
item, the failing item and every later item remain in the outbox collection
unchanged, and the attempted remote calls are exactly those of the completed
prefix plus the failing item's call, so no later item's call is attempted. -/
theorem drain_order_stop_on_failure (r : RemoteClient) (st : Store) (msg : String)
    (bad : OutboxItem) (rest : List OutboxItem)
    (hq : (st.outbox.map OutboxItem.queuedAt).Nodup)
    (hid : (st.outbox.map OutboxItem.id).Nodup) :
    List.Pairwise (fun a b => strLe a.queuedAt b.queuedAt = true ∧ a.queuedAt ≠ b.queuedAt)
        (sortOutbox st.outbox) ∧
    ((drainLoop r st (sortOutbox st.outbox)).failure = some (msg, bad, rest) →
      sortOutbox st.outbox = (drainLoop r st (sortOutbox st.outbox)).done ++ bad :: rest ∧
      bad ∈ (drainLoop r st (sortOutbox st.outbox)).store.outbox ∧
      (∀ it ∈ rest, it ∈ (drainLoop r st (sortOutbox st.outbox)).store.outbox) ∧
      (drainLoop r st (sortOutbox st.outbox)).calls
        = (drainLoop r st (sortOutbox st.outbox)).done.filterMap itemRemoteCall
            ++ (itemRemoteCall bad).toList) := by
  refine ⟨sortOutbox_strict st.outbox hq, fun hfail => ?_⟩
  have hdecomp := drainLoop_decomp r (sortOutbox st.outbox) st msg bad rest hfail
  have hidS : ((sortOutbox st.outbox).map OutboxItem.id).Nodup :=
    (((sortOutbox_perm st.outbox).map OutboxItem.id).nodup_iff).mpr hid
  rw [hdecomp] at hidS
  have hne := nodup_split_ne _ bad rest hidS
  have hmemOf : ∀ it2 ∈ bad :: rest,
      it2 ∈ (drainLoop r st (sortOutbox st.outbox)).store.outbox := by
    intro it2 hit2
    rw [drainLoop_outbox r (sortOutbox st.outbox) st]
    refine List.mem_filter.mpr ⟨?_, ?_⟩
    · have h1 : it2 ∈ sortOutbox st.outbox := by
        rw [hdecomp]
        exact List.mem_append_right _ hit2
      exact ((sortOutbox_perm st.outbox).mem_iff).mp h1
    · rw [List.all_eq_true]
      intro d hd
      exact bne_iff_ne.mpr (hne d hd it2 hit2)
  refine ⟨hdecomp, hmemOf bad (List.mem_cons_self bad rest),
    fun it hit => hmemOf it (List.mem_cons_of_mem bad hit), ?_⟩
  have hc := drainLoop_calls r (sortOutbox st.outbox) st
  rw [hfail] at hc
  simpa [failCalls] using hc

/-- Witness for drain_order_stop_on_failure on the two-item queue with every
mutation call failing: the drain fails on the first item and both items remain
queued. -/
theorem drain_order_stop_on_failure_witness :
    List.Pairwise (fun a b => strLe a.queuedAt b.queuedAt = true ∧ a.queuedAt ≠ b.queuedAt)
        (sortOutbox storeTwoItems.outbox) ∧
    ((drainLoop remoteFailMutations storeTwoItems (sortOutbox storeTwoItems.outbox)).failure
        = some ("boom", itemCreateA, [itemCreateB]) →
      sortOutbox storeTwoItems.outbox
        = (drainLoop remoteFailMutations storeTwoItems (sortOutbox storeTwoItems.outbox)).done
            ++ itemCreateA :: [itemCreateB] ∧
      itemCreateA ∈ (drainLoop remoteFailMutations storeTwoItems
          (sortOutbox storeTwoItems.outbox)).store.outbox ∧
      (∀ it ∈ [itemCreateB], it ∈ (drainLoop remoteFailMutations storeTwoItems
          (sortOutbox storeTwoItems.outbox)).store.outbox) ∧
      (drainLoop remoteFailMutations storeTwoItems (sortOutbox storeTwoItems.outbox)).calls
        = (drainLoop remoteFailMutations storeTwoItems
              (sortOutbox storeTwoItems.outbox)).done.filterMap itemRemoteCall
            ++ (itemRemoteCall itemCreateA).toList) :=
  drain_order_stop_on_failure remoteFailMutations storeTwoItems "boom" itemCreateA [itemCreateB]
    (by decide) (by decide)

/-- C1, amended: when a remote call fails during the drain step, draining
stops and the failing and later outbox items are left untouched, but the pass
is not aborted: the reconcile step still runs. The engine transitions to
Offline only when the reconcile list fetch itself fails (the entries
collection then stays as the partial drain left it); when the fetch succeeds
the entries collection is replaced by the merged set, the state becomes Idle
and only the caught drain error message is surfaced. -/
theorem drain_failure_pass_outcome (r : RemoteClient) (e : EngineState) (msg : String)
    (bad : OutboxItem) (rest : List OutboxItem)
    (hfail : (drainLoop r e.store (sortOutbox e.store.outbox)).failure = some (msg, bad, rest)) :
    (runSync r true true e).1.store.outbox
        = (drainLoop r e.store (sortOutbox e.store.outbox)).store.outbox ∧
    (∀ m, r.listE () = .error m →
      (runSync r true true e).1.syncState = SyncState.offline ∧
      (runSync r true true e).1.store.entries
        = (drainLoop r e.store (sortOutbox e.store.outbox)).store.entries ∧
      (runSync r true true e).1.errorMsg = some m) ∧
    (∀ remotes, r.listE () = .ok remotes →
      (runSync r true true e).1.syncState = SyncState.idle ∧
      (runSync r true true e).1.store.entries
        = putEntries []
            (syncMerge (drainLoop r e.store (sortOutbox e.store.outbox)).store.entries remotes) ∧
      (runSync r true true e).1.errorMsg = some msg) := by
  cases hlist : r.listE () with
  | error m0 =>
    refine ⟨?_, ?_, ?_⟩
    · simp only [runSync, hlist, Bool.true_eq_false, if_false]
    · intro m hm
      injection hm with hm2
      subst hm2
      refine ⟨?_, ?_, ?_⟩ <;> simp only [runSync, hlist, Bool.true_eq_false, if_false]
    · intro remotes hm
      exact absurd hm (by simp)
  | ok remotes0 =>
    refine ⟨?_, ?_, ?_⟩
    · simp only [runSync, hlist, Bool.true_eq_false, if_false]
    · intro m hm
      exact absurd hm (by simp)
    · intro remotes hm
      injection hm with hm2
      subst hm2
      refine ⟨?_, ?_, ?_⟩ <;> simp only [runSync, hlist, Bool.true_eq_false, if_false]
      rw [hfail]
      rfl

/-- Witness for drain_failure_pass_outcome at the concrete counterexample
input: the failing create leaves the queued item, the list fetch succeeds, so
the pass ends Idle with the merged entries. -/
theorem drain_failure_pass_outcome_witness :
    (runSync remoteFailMutations true true engineC1).1.store.outbox
        = (drainLoop remoteFailMutations engineC1.store
            (sortOutbox engineC1.store.outbox)).store.outbox ∧
    (∀ m, remoteFailMutations.listE () = .error m →
      (runSync remoteFailMutations true true engineC1).1.syncState = SyncState.offline ∧
      (runSync remoteFailMutations true true engineC1).1.store.entries
        = (drainLoop remoteFailMutations engineC1.store
            (sortOutbox engineC1.store.outbox)).store.entries ∧
      (runSync remoteFailMutations true true engineC1).1.errorMsg = some m) ∧
    (∀ remotes, remoteFailMutations.listE () = .ok remotes →
      (runSync remoteFailMutations true true engineC1).1.syncState = SyncState.idle ∧
      (runSync remoteFailMutations true true engineC1).1.store.entries
        = putEntries []
            (syncMerge (drainLoop remoteFailMutations engineC1.store
                (sortOutbox engineC1.store.outbox)).store.entries remotes) ∧
      (runSync remoteFailMutations true true engineC1).1.errorMsg = some "boom") :=
  drain_failure_pass_outcome remoteFailMutations engineC1 "boom" itemCreateA [] (by decide)

/-- C3, amended: runSync contains no reentrancy guard. The outcome of a sync
request (resulting store, remote calls made) is identical whatever the
engine's current syncState, so a request arriving while already Syncing
proceeds exactly as from Idle; and when two back-to-back requests both read
the outbox before either pass removes an item, the two passes each replay
every queued item's call, so each item is drained once per pass, twice in
total. -/
theorem runSync_no_reentrancy_guard (r : RemoteClient) (token online : Bool)
    (e : EngineState) (s1 s2 : SyncState)
    (h1 : (drainLoop r e.store (sortOutbox e.store.outbox)).failure = none)
    (h2 : (drainLoop r (drainLoop r e.store (sortOutbox e.store.outbox)).store
            (sortOutbox e.store.outbox)).failure = none) :
    (runSync r token online { e with syncState := s1 }).1.store
        = (runSync r token online { e with syncState := s2 }).1.store ∧
    (runSync r token online { e with syncState := s1 }).2
        = (runSync r token online { e with syncState := s2 }).2 ∧
    backToBackDrainCalls r e.store
        = (sortOutbox e.store.outbox).filterMap itemRemoteCall
            ++ (sortOutbox e.store.outbox).filterMap itemRemoteCall := by
  refine ⟨?_, ?_, ?_⟩
  · cases token <;> cases online <;> simp [runSync]
  · cases token <;> cases online <;> simp [runSync]
  · show (drainLoop r e.store (sortOutbox e.store.outbox)).calls
        ++ (drainLoop r (drainLoop r e.store (sortOutbox e.store.outbox)).store
              (sortOutbox e.store.outbox)).calls
      = _
    have ca := drainLoop_calls r (sortOutbox e.store.outbox) e.store
    rw [h1, drainLoop_done_of_none r _ _ h1] at ca
    have cb := drainLoop_calls r (sortOutbox e.store.outbox)
        (drainLoop r e.store (sortOutbox e.store.outbox)).store
    rw [h2, drainLoop_done_of_none r _ _ h2] at cb
    simp only [failCalls, List.append_nil] at ca cb
    rw [ca, cb]

/-- Witness for runSync_no_reentrancy_guard on the two-item queue with the
all-succeeding remote: a request from the Syncing state behaves as one from
Idle, and the back-to-back drains make every call twice. -/
theorem runSync_no_reentrancy_guard_witness :
    (runSync remoteAllOk true true { engineTwo with syncState := SyncState.syncing }).1.store
        = (runSync remoteAllOk true true { engineTwo with syncState := SyncState.idle }).1.store ∧
    (runSync remoteAllOk true true { engineTwo with syncState := SyncState.syncing }).2
        = (runSync remoteAllOk true true { engineTwo with syncState := SyncState.idle }).2 ∧
    backToBackDrainCalls remoteAllOk engineTwo.store
        = (sortOutbox engineTwo.store.outbox).filterMap itemRemoteCall
            ++ (sortOutbox engineTwo.store.outbox).filterMap itemRemoteCall :=
  runSync_no_reentrancy_guard remoteAllOk true true engineTwo SyncState.syncing SyncState.idle
    (by decide) (by decide)

/-- C6, amended: during a drain an outbox record disappears from the outbox
collection only when its item's iteration completed, which requires the remote
call its action demands (when one is demanded) to have returned success;
however the authentication transitions (sign-in and sign-out) clear the whole
outbox collection without any remote call. -/
theorem outbox_removal_requires_success (r : RemoteClient) (st : Store)
    (l : List OutboxItem) (it : OutboxItem)
    (hmem : it ∈ st.outbox) (hgone : it ∉ (drainLoop r st l).store.outbox) :
    (∃ d ∈ (drainLoop r st l).done, d.id = it.id ∧ callSucceeded r d) ∧
    ∀ st2 : Store, (handleLogout st2).1.outbox = [] ∧ (handleLogout st2).2 = [] := by
  constructor
  · rw [drainLoop_outbox r l st] at hgone
    by_cases hp : ((drainLoop r st l).done.all (fun d => d.id != it.id)) = true
    · exact absurd (List.mem_filter.mpr ⟨hmem, hp⟩) hgone
    · rw [List.all_eq_true] at hp
      push_neg at hp
      obtain ⟨d, hd, hne⟩ := hp
      have hideq : d.id = it.id := by
        by_contra hcon
        exact hne (bne_iff_ne.mpr hcon)
      exact ⟨d, hd, hideq, drainLoop_done_succeeded r l st d hd⟩
  · intro st2
    exact ⟨rfl, rfl⟩

/-- Witness for outbox_removal_requires_success: the create item drained by
the all-succeeding remote disappears, and indeed its create call succeeded. -/
theorem outbox_removal_requires_success_witness :
    (∃ d ∈ (drainLoop remoteAllOk storeOneItem [itemCreateA]).done,
        d.id = itemCreateA.id ∧ callSucceeded remoteAllOk d) ∧
    ∀ st2 : Store, (handleLogout st2).1.outbox = [] ∧ (handleLogout st2).2 = [] :=
  outbox_removal_requires_success remoteAllOk storeOneItem [itemCreateA] itemCreateA
    (by decide) (by decide)

/-- Unfolding of drainStep on a delete item. -/
theorem drainStep_delete (r : RemoteClient) (es : List Entry) (item : OutboxItem)
    (hact : item.action = OutboxAction.delete) :
    drainStep r es item
      = match r.deleteE item.entryId with
        | .ok _ => .ok es
        | .error msg => .error msg := by
  rcases item with ⟨iid, act, eid, pl, q⟩
  cases act with
  | delete => cases pl <;> rfl
  | create => exact absurd hact (by simp)
  | update => exact absurd hact (by simp)

/-- C7: the adapter treats the backend's not-found delete response as success,
so draining a stale queued delete item for an already absent entry succeeds
and removes the item, leaving no outbox item behind and no failure. -/
theorem delete_notfound_success (r : RemoteClient) (st : Store) (item : OutboxItem)
    (resp : HttpResponse Unit)
    (hout : st.outbox = [item]) (hact : item.action = OutboxAction.delete)
    (hstatus : resp.status = 404)
    (hdel : r.deleteE item.entryId = apiDeleteEntry resp) :
    apiDeleteEntry resp = .ok () ∧
    (drainLoop r st (sortOutbox st.outbox)).store.outbox = [] ∧
    (drainLoop r st (sortOutbox st.outbox)).failure = none := by
  have hok : apiDeleteEntry resp = .ok () := by
    unfold apiDeleteEntry
    rw [if_pos hstatus]
  have hstep : drainStep r st.entries item = .ok st.entries := by
    rw [drainStep_delete r st.entries item hact, hdel, hok]
  have hsort : sortOutbox st.outbox = [item] := by
    rw [hout]
    rfl
  rw [hsort, drainLoop_cons_ok r st item [] st.entries hstep]
  refine ⟨hok, ?_, ?_⟩
  · simp [drainLoop, deleteOutboxItem, hout]
  · simp [drainLoop]

/-- Witness for delete_notfound_success at the stale delete item with the
concrete 404 response. -/
theorem delete_notfound_success_witness :
    apiDeleteEntry resp404 = .ok () ∧
    (drainLoop remoteDelete404 storeStaleDelete
        (sortOutbox storeStaleDelete.outbox)).store.outbox = [] ∧
    (drainLoop remoteDelete404 storeStaleDelete
        (sortOutbox storeStaleDelete.outbox)).failure = none :=
  delete_notfound_success remoteDelete404 storeStaleDelete itemDeleteA resp404 rfl rfl rfl rfl

/-- C10: every entry the adapter produces (fetchEntries, createEntry,
updateEntry) carries syncStatus synced, and a drain iteration writes only
entries with syncStatus synced into the Local Store (every entry of the
collection afterwards is an old entry or a synced one); a drain never writes
a pending entry. -/
theorem adapter_drain_syncStatus_synced :
    (∀ (resp : HttpResponse (List ServerEntry)) (l : List Entry),
        apiFetchEntries resp = .ok l → ∀ e ∈ l, e.syncStatus = some SyncStatus.synced) ∧
    (∀ (resp : HttpResponse ServerEntry) (e : Entry),
        apiCreateEntry resp = .ok e → e.syncStatus = some SyncStatus.synced) ∧
    (∀ (resp : HttpResponse ServerEntry) (e : Entry),
        apiUpdateEntry resp = .ok e → e.syncStatus = some SyncStatus.synced) ∧
    (∀ (r : RemoteClient) (es es2 : List Entry) (item : OutboxItem),
        drainStep r es item = .ok es2 →
          ∀ e2 ∈ es2, e2 ∈ es ∨ e2.syncStatus = some SyncStatus.synced) := by
  refine ⟨?_, ?_, ?_, ?_⟩
  · intro resp l h e he
    unfold apiFetchEntries at h
    by_cases hok : responseOk resp.status = true
    · rw [if_pos hok] at h
      injection h with h2
      subst h2
      rcases List.mem_map.mp he with ⟨s, -, hse⟩
      rw [← hse]
      rfl
    · rw [if_neg hok] at h
      exact absurd h (by simp)
  · intro resp e h
    unfold apiCreateEntry at h
    by_cases hok : responseOk resp.status = true
    · rw [if_pos hok] at h
      injection h with h2
      rw [← h2]
      rfl
    · rw [if_neg hok] at h
      exact absurd h (by simp)
  · intro resp e h
    unfold apiUpdateEntry at h
    by_cases hok : responseOk resp.status = true
    · rw [if_pos hok] at h
      injection h with h2
      rw [← h2]
      rfl
    · rw [if_neg hok] at h
      exact absurd h (by simp)
  · intro r es es2 item h e2 he2
    rcases item with ⟨iid, act, eid, pl, q⟩
    cases act <;> cases pl <;> simp only [drainStep] at h
    · injection h with h2
      subst h2
      exact Or.inl he2
    · cases hc : r.createE ‹EntryPayload› with
      | ok c =>
        rw [hc] at h
        injection h with h2
        subst h2
        rcases putEntry_mem es _ e2 he2 with hmem | heq
        · exact Or.inl hmem
        · subst heq
          exact Or.inr rfl
      | error m =>
        rw [hc] at h
        exact absurd h (by simp)
    · injection h with h2
      subst h2
      exact Or.inl he2
    · cases hc : r.updateE eid ‹EntryPayload› with
      | ok c =>
        rw [hc] at h
        injection h with h2
        subst h2
        rcases putEntry_mem es _ e2 he2 with hmem | heq
        · exact Or.inl hmem
        · subst heq
          exact Or.inr rfl
      | error m =>
        rw [hc] at h
        exact absurd h (by simp)
    · cases hc : r.deleteE eid with
      | ok u =>
        rw [hc] at h
        injection h with h2
        subst h2
        exact Or.inl he2
      | error m =>
        rw [hc] at h
        exact absurd h (by simp)
    · cases hc : r.deleteE eid with
      | ok u =>
        rw [hc] at h
        injection h with h2
        subst h2
        exact Or.inl he2
      | error m =>
        rw [hc] at h
        exact absurd h (by simp)

/-- Witness for adapter_drain_syncStatus_synced: the entry built from the
concrete 201 create response is synced. -/
theorem adapter_drain_syncStatus_synced_witness :
    (serverToEntry srvE1).syncStatus = some SyncStatus.synced :=
  adapter_drain_syncStatus_synced.2.1 respCreate1 (serverToEntry srvE1) rfl

/-- Elements of the initial list survive addMissing. -/
theorem addMissing_mono : ∀ (m : List (String × Entry)) (init : List Entry) (x : Entry),
    x ∈ init → x ∈ addMissing init m := by
  intro m
  induction m with
  | nil => intro init x hx; exact hx
  | cons p tl ih =>
    intro init x hx
    show x ∈ addMissing
        (if init.any (fun item => item.id == p.2.id) then init else init ++ [p.2]) tl
    apply ih
    by_cases hc : (init.any (fun item => item.id == p.2.id)) = true
    · rw [if_pos hc]; exact hx
    · rw [if_neg hc]; exact List.mem_append_left _ hx

/-- A pair whose key no element of the accumulator carries gets its value
appended by addMissing. -/
theorem mem_addMissing : ∀ (m : List (String × Entry)) (init : List Entry) (k : String)
    (v : Entry), (k, v) ∈ m → (∀ p ∈ m, p.2.id = p.1) → ((m.map Prod.fst).Nodup) →
    (∀ x ∈ init, x.id ≠ k) → v ∈ addMissing init m := by
  intro m
  induction m with
  | nil => intro init k v hkv _ _ _; exact absurd hkv (List.not_mem_nil _)
  | cons p tl ih =>
    intro init k v hkv hids hnd hinit
    show v ∈ addMissing
        (if init.any (fun item => item.id == p.2.id) then init else init ++ [p.2]) tl
    simp only [List.map_cons] at hnd
    obtain ⟨hp1, htl⟩ := List.nodup_cons.mp hnd
    rcases List.mem_cons.mp hkv with heq | hmem
    · have hpk : p = (k, v) := heq.symm
      subst hpk
      have hvk : v.id = k := hids (k, v) (List.mem_cons_self _ tl)
      have hany : ¬ ((init.any (fun item => item.id == v.id)) = true) := by
        rw [List.any_eq_true]
        rintro ⟨x, hx, hxe⟩
        exact hinit x hx (by rw [← hvk]; exact beq_iff_eq.mp hxe)
      rw [if_neg hany]
      exact addMissing_mono tl _ v (List.mem_append_right _ (List.mem_singleton.mpr rfl))
    · have hk1 : p.1 ≠ k := by
        intro hcon
        apply hp1
        rw [hcon]
        exact List.mem_map_of_mem Prod.fst hmem
      apply ih _ k v hmem (fun q hq => hids q (List.mem_cons_of_mem p hq)) htl
      intro x hx
      by_cases hc : (init.any (fun item => item.id == p.2.id)) = true
      · rw [if_pos hc] at hx
        exact hinit x hx
      · rw [if_neg hc] at hx
        rcases List.mem_append.mp hx with hx | hx
        · exact hinit x hx
        · simp only [List.mem_singleton] at hx
          subst hx
          rw [hids p (List.mem_cons_self p tl)]
          exact hk1

/-- Building the JavaScript Map from entries with pairwise distinct ids
appends one pair per entry. -/
theorem foldl_mapSet_eq : ∀ (l : List Entry) (m : List (String × Entry)),
    ((l.map Entry.id).Nodup) → (∀ e ∈ l, ∀ p ∈ m, p.1 ≠ e.id) →
    l.foldl (fun m2 e => mapSet m2 e.id e) m = m ++ l.map (fun e => (e.id, e)) := by
  intro l
  induction l with
  | nil => intro m _ _; simp
  | cons e tl ih =>
    intro m hnd hdisj
    simp only [List.foldl_cons]
    have hset : mapSet m e.id e = m ++ [(e.id, e)] := by
      unfold mapSet
      have hno : ¬ ((m.any (fun p => p.1 == e.id)) = true) := by
        rw [List.any_eq_true]
        rintro ⟨p, hp, hpe⟩
        exact hdisj e (List.mem_cons_self e tl) p hp (beq_iff_eq.mp hpe)
      rw [if_neg hno]
    rw [hset]
    simp only [List.map_cons] at hnd
    obtain ⟨hid, htl⟩ := List.nodup_cons.mp hnd
    have hdisj2 : ∀ e2 ∈ tl, ∀ p ∈ m ++ [(e.id, e)], p.1 ≠ e2.id := by
      intro e2 he2 p hp
      rcases List.mem_append.mp hp with hp | hp
      · exact hdisj e2 (List.mem_cons_of_mem e he2) p hp
      · simp only [List.mem_singleton] at hp
        subst hp
        intro hcon
        apply hid
        rw [show (e.id, e).1 = e.id from rfl] at hcon
        rw [hcon]
        exact List.mem_map_of_mem Entry.id he2
    rw [ih (m ++ [(e.id, e)]) htl hdisj2]
    simp

/-- Map.get over the one-pair-per-entry association list is find? by id. -/
theorem mapGet_map_eq (l : List Entry) (k : String) :
    mapGet (l.map (fun e => (e.id, e))) k = l.find? (fun e => e.id == k) := by
  unfold mapGet
  rw [List.find?_map]
  have hcomp : ((fun p : String × Entry => p.1 == k) ∘ fun e : Entry => (e.id, e))
      = fun e : Entry => e.id == k := rfl
  rw [hcomp]
  cases l.find? (fun e : Entry => e.id == k) <;> rfl

/-- The ids of the still-pending entries stay pairwise distinct. -/
theorem pendingEntries_nodup (locals : List Entry) (hnd : (locals.map Entry.id).Nodup) :
    ((pendingEntries locals).map Entry.id).Nodup :=
  List.Nodup.sublist ((List.filter_sublist locals).map Entry.id) hnd

/-- Under the Local Store's one-entry-per-id keying the pending Map is the
one-pair-per-entry association list. -/
theorem buildPendingMap_eq (locals : List Entry)
    (hnd : ((pendingEntries locals).map Entry.id).Nodup) :
    buildPendingMap locals = (pendingEntries locals).map (fun e => (e.id, e)) := by
  unfold buildPendingMap
  have hdisj : ∀ e ∈ pendingEntries locals, ∀ p ∈ ([] : List (String × Entry)), p.1 ≠ e.id := by
    intro e _ p hp
    exact absurd hp (List.not_mem_nil p)
  rw [foldl_mapSet_eq (pendingEntries locals) [] hnd hdisj]
  simp

/-- C4: the reconcile merge is pending-wins. For every remote entry, the
pending local entry with the same id (unique by the Local Store's keying) is
in the merged set when one exists; the remote entry itself is in the merged
set when none exists; and every pending local entry whose id is absent from
the remote listing is also in the merged set. In particular a pending local
entry, with all its fields, overrides the remote entry of the same id. -/
theorem syncMerge_pending_wins (locals remotes : List Entry)
    (hnd : (locals.map Entry.id).Nodup) :
    (∀ e ∈ remotes, ∀ p ∈ locals, p.syncStatus = some SyncStatus.pending → p.id = e.id →
        p ∈ syncMerge locals remotes) ∧
    (∀ e ∈ remotes, (∀ p ∈ locals, p.syncStatus = some SyncStatus.pending → p.id ≠ e.id) →
        e ∈ syncMerge locals remotes) ∧
    (∀ p ∈ locals, p.syncStatus = some SyncStatus.pending → (∀ e ∈ remotes, e.id ≠ p.id) →
        p ∈ syncMerge locals remotes) := by
  have hpnd : ((pendingEntries locals).map Entry.id).Nodup := pendingEntries_nodup locals hnd
  have hbm : buildPendingMap locals = (pendingEntries locals).map (fun e => (e.id, e)) :=
    buildPendingMap_eq locals hpnd
  refine ⟨?_, ?_, ?_⟩
  · intro e he p hp hpend hpe
    have hpmem : p ∈ pendingEntries locals := List.mem_filter.mpr ⟨hp, by simp [hpend]⟩
    have hsome : ((pendingEntries locals).find? (fun x => x.id == e.id)).isSome := by
      rw [List.find?_isSome]
      exact ⟨p, hpmem, beq_iff_eq.mpr hpe⟩
    obtain ⟨q, hq⟩ := Option.isSome_iff_exists.mp hsome
    have hqmem := List.mem_of_find?_eq_some hq
    have hqb := List.find?_some hq
    have hqid : q.id = e.id := beq_iff_eq.mp hqb
    have hqp : q = p := by
      apply List.inj_on_of_nodup_map hpnd hqmem hpmem
      rw [hqid, hpe]
    have hstep : (mapGet (buildPendingMap locals) e.id).getD e ∈ mergeStep1 locals remotes :=
      List.mem_map_of_mem _ he
    rw [hbm, mapGet_map_eq, hq, hqp] at hstep
    simp only [Option.getD_some] at hstep
    show p ∈ addMissing (mergeStep1 locals remotes) (buildPendingMap locals)
    exact addMissing_mono _ _ _ hstep
  · intro e he hnone
    have hfind : (pendingEntries locals).find? (fun x => x.id == e.id) = none := by
      rw [List.find?_eq_none]
      intro x hx hxe
      have hxl := (List.mem_filter.mp hx).1
      have hxp : x.syncStatus = some SyncStatus.pending := by
        have h2 := (List.mem_filter.mp hx).2
        simpa using h2
      exact hnone x hxl hxp (beq_iff_eq.mp hxe)
    have hstep : (mapGet (buildPendingMap locals) e.id).getD e ∈ mergeStep1 locals remotes :=
      List.mem_map_of_mem _ he
    rw [hbm, mapGet_map_eq, hfind] at hstep
    simp only [Option.getD_none] at hstep
    show e ∈ addMissing (mergeStep1 locals remotes) (buildPendingMap locals)
    exact addMissing_mono _ _ _ hstep
  · intro p hp hpend habs
    have hpmem : p ∈ pendingEntries locals := List.mem_filter.mpr ⟨hp, by simp [hpend]⟩
    have hkv : (p.id, p) ∈ buildPendingMap locals := by
      rw [hbm]
      exact List.mem_map_of_mem _ hpmem
    have hids : ∀ q ∈ buildPendingMap locals, q.2.id = q.1 := by
      rw [hbm]
      intro q hq
      rcases List.mem_map.mp hq with ⟨x, -, hxq⟩
      rw [← hxq]
    have hkeys : ((buildPendingMap locals).map Prod.fst).Nodup := by
      rw [hbm, List.map_map]
      exact hpnd
    have hinit : ∀ x ∈ mergeStep1 locals remotes, x.id ≠ p.id := by
      intro x hx
      rcases List.mem_map.mp hx with ⟨er, her, hxe⟩
      have hxid : x.id = er.id := by
        rw [← hxe]
        cases hg : mapGet (buildPendingMap locals) er.id with
        | none => rfl
        | some q =>
          simp only [Option.getD_some]
          rw [hbm, mapGet_map_eq] at hg
          have hgb := List.find?_some hg
          exact beq_iff_eq.mp hgb
      rw [hxid]
      intro hcon
      exact habs er her hcon
    show p ∈ addMissing (mergeStep1 locals remotes) (buildPendingMap locals)
    exact mem_addMissing _ _ p.id p hkv hids hkeys hinit

/-- Witness for syncMerge_pending_wins on the pending e1 with notes "local"
against the remote listing carrying the older e1 and the fresh e2. -/
theorem syncMerge_pending_wins_witness :
    (∀ e ∈ [entryRemoteOld, entryRemoteB], ∀ p ∈ [entryLocal],
        p.syncStatus = some SyncStatus.pending → p.id = e.id →
        p ∈ syncMerge [entryLocal] [entryRemoteOld, entryRemoteB]) ∧
    (∀ e ∈ [entryRemoteOld, entryRemoteB],
        (∀ p ∈ [entryLocal], p.syncStatus = some SyncStatus.pending → p.id ≠ e.id) →
        e ∈ syncMerge [entryLocal] [entryRemoteOld, entryRemoteB]) ∧
    (∀ p ∈ [entryLocal], p.syncStatus = some SyncStatus.pending →
        (∀ e ∈ [entryRemoteOld, entryRemoteB], e.id ≠ p.id) →
        p ∈ syncMerge [entryLocal] [entryRemoteOld, entryRemoteB]) :=
  syncMerge_pending_wins [entryLocal] [entryRemoteOld, entryRemoteB] (by decide)

/-- C8, amended: the authenticated Postgres backend's listEntries returns the
user's entries sorted in non-increasing brewedAt order (ORDER BY brewed_at
DESC); the mock file-backed backend's Store.List instead returns the entries
slice in held order, which need not be sorted. -/
theorem listEntries_sorted_desc (table : List DbEntryRow) (userID : String) :
    List.Pairwise (fun a b : GoEntry => strLe b.brewedAt a.brewedAt = true)
      (listEntries table userID) := by
  unfold listEntries
  rw [List.pairwise_map]
  have hs : List.Pairwise brewedDesc
      (List.insertionSort brewedDesc (table.filter (fun row => row.userId == userID))) :=
    List.sorted_insertionSort brewedDesc _
  exact hs.imp (fun h => h)

/-- The first matching entry of the mock Store.Update gets its payload fields
and UpdatedAt rewritten while its CreatedAt field is carried over untouched. -/
theorem storeUpdate_first_match : ∀ (entries : List GoEntry) (e : GoEntry) (id : String)
    (input : EntryInput) (now : String),
    e ∈ entries → e.id = id → ((entries.map GoEntry.id).Nodup) →
    ∃ rest, storeUpdate id input now entries
      = some ({ e with
                beans := input.beans, brewMethod := input.brewMethod,
                notes := input.notes, rating := input.rating, brewedAt := input.brewedAt,
                updatedAt := now }, rest) := by
  intro entries
  induction entries with
  | nil => intro e id input now he _ _; exact absurd he (List.not_mem_nil e)
  | cons h2 tl ih =>
    intro e id input now he hid hnd
    simp only [List.map_cons] at hnd
    obtain ⟨hh, htl⟩ := List.nodup_cons.mp hnd
    rcases List.mem_cons.mp he with heq | hmem
    · subst heq
      unfold storeUpdate
      rw [if_pos (beq_iff_eq.mpr hid)]
      exact ⟨_, rfl⟩
    · have hne : ¬ ((h2.id == id) = true) := by
        intro hcon
        apply hh
        have h3 : h2.id = e.id := by
          rw [beq_iff_eq.mp hcon, hid]
        rw [h3]
        exact List.mem_map_of_mem GoEntry.id hmem
      unfold storeUpdate
      rw [if_neg hne]
      obtain ⟨rest, hres⟩ := ih e id input now hmem hid htl
      rw [hres]
      exact ⟨h2 :: rest, rfl⟩

/-- After the UPDATE of the Postgres updateEntry, re-selecting the matching
row finds the updated copy of the original row, whose created_at is the
original one. -/
theorem map_update_find? : ∀ (table : List DbEntryRow) (row : DbEntryRow) (userID id : String)
    (input : EntryInput) (now : String),
    row ∈ table → rowMatches userID id row = true →
    ((table.map (fun r => (r.userId, r.id))).Nodup) →
    (table.map
        (fun r2 => if rowMatches userID id r2 then sqlUpdateRow input now r2 else r2)).find?
        (rowMatches userID id)
      = some (sqlUpdateRow input now row) := by
  intro table
  induction table with
  | nil => intro row _ _ _ _ hmem _ _; exact absurd hmem (List.not_mem_nil row)
  | cons t tl ih =>
    intro row userID id input now hmem hmatch hnd
    simp only [List.map_cons] at hnd ⊢
    obtain ⟨ht, htl⟩ := List.nodup_cons.mp hnd
    rcases List.mem_cons.mp hmem with heq | hmem2
    · subst heq
      rw [if_pos hmatch]
      have hm2 : rowMatches userID id (sqlUpdateRow input now row) = true := hmatch
      rw [List.find?_cons_of_pos _ hm2]
    · by_cases hmt : rowMatches userID id t = true
      · exfalso
        apply ht
        have hkeys : (t.userId, t.id) = (row.userId, row.id) := by
          unfold rowMatches at hmt hmatch
          obtain ⟨h1, h2⟩ := Bool.and_eq_true_iff.mp hmt
          obtain ⟨h3, h4⟩ := Bool.and_eq_true_iff.mp hmatch
          rw [beq_iff_eq.mp h1, beq_iff_eq.mp h2, beq_iff_eq.mp h3, beq_iff_eq.mp h4]
        rw [hkeys]
        exact List.mem_map_of_mem _ hmem2
      · rw [if_neg hmt, List.find?_cons_of_neg _ hmt]
        exact ih row userID id input now hmem2 hmatch htl

/-- C9: a successful update leaves createdAt unchanged while rewriting the
payload fields and updatedAt. For the mock backend's Store.Update the
returned entry is the stored entry with only the payload fields and UpdatedAt
replaced (CreatedAt carried over); for the authenticated Postgres backend's
updateEntry the returned canonical entry carries the matching row's original
created_at together with the new payload fields and updated_at. -/
theorem updateEntry_preserves_createdAt (entries : List GoEntry) (e : GoEntry)
    (table : List DbEntryRow) (row : DbEntryRow) (userID id id2 : String)
    (input input2 : EntryInput) (now now2 : String)
    (hmem : e ∈ entries) (hid : e.id = id2) (hnd : (entries.map GoEntry.id).Nodup)
    (hrow : row ∈ table) (hu : row.userId = userID) (hrid : row.id = id)
    (hknd : (table.map (fun r => (r.userId, r.id))).Nodup) :
    (∃ rest, storeUpdate id2 input2 now2 entries
        = some ({ e with
                  beans := input2.beans, brewMethod := input2.brewMethod,
                  notes := input2.notes, rating := input2.rating,
                  brewedAt := input2.brewedAt, updatedAt := now2 }, rest)) ∧
    (updateEntry table userID id input now).1
        = some { id := id, beans := input.beans, brewMethod := input.brewMethod,
                 notes := input.notes, rating := input.rating, brewedAt := input.brewedAt,
                 createdAt := row.createdAt, updatedAt := now } := by
  constructor
  · exact storeUpdate_first_match entries e id2 input2 now2 hmem hid hnd
  · have hmatch : rowMatches userID id row = true := by
      unfold rowMatches
      rw [Bool.and_eq_true]
      exact ⟨beq_iff_eq.mpr hu, beq_iff_eq.mpr hrid⟩
    have hany : (table.any (rowMatches userID id)) = true :=
      List.any_eq_true.mpr ⟨row, hrow, hmatch⟩
    simp only [updateEntry]
    rw [if_pos hany]
    simp only
    rw [map_update_find? table row userID id input now hrow hmatch hknd]
    rfl

/-- Witness for updateEntry_preserves_createdAt: updating g1 in the mock
store and in the Postgres table of user u1 preserves the January created
timestamps. -/
theorem updateEntry_preserves_createdAt_witness :
    (∃ rest, storeUpdate "g1" inputU "2024-03-02T00:00:00Z" [goEarly]
        = some ({ goEarly with
                  beans := inputU.beans, brewMethod := inputU.brewMethod,
                  notes := inputU.notes, rating := inputU.rating,
                  brewedAt := inputU.brewedAt, updatedAt := "2024-03-02T00:00:00Z" }, rest)) ∧
    (updateEntry [dbRow1] "u1" "g1" inputU "2024-03-02T00:00:00Z").1
        = some { id := "g1", beans := inputU.beans, brewMethod := inputU.brewMethod,
                 notes := inputU.notes, rating := inputU.rating, brewedAt := inputU.brewedAt,
                 createdAt := dbRow1.createdAt, updatedAt := "2024-03-02T00:00:00Z" } :=
  updateEntry_preserves_createdAt [goEarly] goEarly [dbRow1] dbRow1 "u1" "g1" "g1"
    inputU inputU "2024-03-02T00:00:00Z" "2024-03-02T00:00:00Z"
    (by decide) rfl (by decide) (by decide) rfl rfl (by decide)

end Coffee
